import Mathlib

/-!
# Verification of the Contour ingress-controller core

A shallow embedding, in Lean 4, of the parts of the Contour source that the
spec's claims talk about:

* `internal/dag` object cache (`KubernetesCache.Insert`, `Remove`,
  `serviceTriggersRebuild`, `secretTriggersRebuild`, `ingressClass`);
* `internal/contour/cond.go` (`Cond.Register`, `Cond.Notify`, and the
  `EventHandler.onUpdate` dispatch with its masked equality);
* the envoy route translation (`timeout`, `retryPolicy`, `weightedClusters`);
* `internal/dag/dag.go` vertex model (`VirtualHost.addRoute`).

Go maps are embedded as association lists with replace-or-append insertion
(Go map iteration order is irrelevant here: every loop below is an
existential scan).  Go `uint32` arithmetic is `Nat` with explicit `% 2^32`.
Go `time.Duration` (an `int64` nanosecond count) is `Int`; the counters in
`Cond` and the event handler count events and are embedded as `Nat`.
-/

namespace Contour

/-! ## Association-list maps (embedding of Go maps) -/

/-- Insert-or-replace for an association list; the embedding of a Go map
assignment `m[k] = v`. -/
def mapInsert {K V : Type} [DecidableEq K] (k : K) (v : V) :
    List (K × V) → List (K × V)
  | [] => [(k, v)]
  | (k', v') :: rest =>
    if k' = k then (k, v) :: rest else (k', v') :: mapInsert k v rest

/-- Key membership test; the embedding of `_, ok := m[k]`. -/
def mapHasKey {K V : Type} [DecidableEq K] (k : K) : List (K × V) → Bool
  | [] => false
  | (k', _) :: rest => k' = k || mapHasKey k rest

/-- Removal by key; the embedding of Go `delete(m, k)`. -/
def mapRemove {K V : Type} [DecidableEq K] (k : K) :
    List (K × V) → List (K × V)
  | [] => []
  | (k', v') :: rest =>
    if k' = k then mapRemove k rest else (k', v') :: mapRemove k rest

/-- First-match lookup; the embedding of `v, ok := m[k]`. -/
def mapLookup {K V : Type} [DecidableEq K] (k : K) :
    List (K × V) → Option V
  | [] => none
  | (k', v') :: rest => if k' = k then some v' else mapLookup k rest

/-- Test under a Go nil-guard: `false` on `nil`, else the test on the
pointee (the embedding of `if x != nil { ... }` around a boolean scan). -/
def optAny {α : Type} (f : α → Bool) : Option α → Bool
  | some x => f x
  | none => false

/-! ## Kubernetes object model

The Kubernetes API types (`v1.Secret`, `v1.Service`, `v1beta1.Ingress`) and
the Contour CRD types (`IngressRoute`, `HTTPProxy`,
`TLSCertificateDelegation`) are declared outside the translation core (the
spec treats the object library as "an opaque typed value set").  They are
embedded here with exactly the fields the core reads: object meta
(namespace, name, resource version, annotations), the ingress backend /
rule / TLS shapes scanned by `serviceTriggersRebuild` and
`secretTriggersRebuild`, the root `virtualHost.tls` shape, delegation
records, and a status subresource on the routing kinds (the status writer
in `cond.go` updates `Status` on `IngressRoute` and `HTTPProxy`).  Fields
the core never touches are collapsed into nothing. -/

/-- Object metadata: the fields of `metav1.ObjectMeta` the core reads. -/
structure ObjMeta where
  nspace : String
  name : String
  resourceVersion : String
  annotations : List (String × String)
deriving DecidableEq, Repr

/-- Embedding of `dag.Meta`, the cache key. -/
structure Meta where
  name : String
  nspace : String
deriving DecidableEq, Repr

/-- Embedding of `toMeta`. -/
def toMeta (m : ObjMeta) : Meta :=
  { name := m.name, nspace := m.nspace }

/-- Embedding of `v1.Secret`: meta, type string, and data keyed by string. -/
structure SecretObj where
  meta : ObjMeta
  type : String
  data : List (String × String)
deriving DecidableEq, Repr

/-- `v1.SecretTypeServiceAccountToken`. -/
def secretTypeServiceAccountToken : String := "kubernetes.io/service-account-token"

/-- `v1.SecretTypeTLS`. -/
def secretTypeTLS : String := "kubernetes.io/tls"

/-- `_, hasCA := secret.Data["ca.crt"]`. -/
def SecretObj.hasCA (s : SecretObj) : Bool :=
  mapHasKey "ca.crt" s.data

/-- Embedding of `v1.Service`: only its meta is read by the core; the rest
of the object is carried opaquely so that overwriting is observable. -/
structure ServiceObj where
  meta : ObjMeta
  spec : String
deriving DecidableEq, Repr

/-- A single `HTTPIngressPath`: the backend service name it routes to. -/
structure IngressPath where
  serviceName : String
deriving DecidableEq, Repr

/-- An `IngressRule`: `rule.IngressRuleValue.HTTP` may be absent. -/
structure IngressRule where
  http : Option (List IngressPath)
deriving DecidableEq, Repr

/-- An `IngressTLS` entry. -/
structure IngressTLS where
  secretName : String
deriving DecidableEq, Repr

/-- Embedding of `v1beta1.Ingress`. -/
structure IngressObj where
  meta : ObjMeta
  backend : Option IngressPath
  rules : List IngressRule
  tls : List IngressTLS
  status : String
deriving DecidableEq, Repr

/-- A service reference inside an IngressRoute/HTTPProxy route or tcpproxy. -/
structure RouteServiceRef where
  name : String
deriving DecidableEq, Repr

/-- A route of an IngressRoute/HTTPProxy spec: the services it names. -/
structure SpecRoute where
  services : List RouteServiceRef
deriving DecidableEq, Repr

/-- A `tcpproxy` block: the services it names. -/
structure SpecTCPProxy where
  services : List RouteServiceRef
deriving DecidableEq, Repr

/-- A `virtualHost.tls` block of a root. -/
structure VirtualHostTLS where
  secretName : String
deriving DecidableEq, Repr

/-- A `virtualHost` block: present only on roots. -/
structure SpecVirtualHost where
  fqdn : String
  tls : Option VirtualHostTLS
deriving DecidableEq, Repr

/-- Embedding of `ingressroutev1.IngressRoute` (and, shape-wise, of
`projectcontour.HTTPProxy`). -/
structure IngressRouteObj where
  meta : ObjMeta
  virtualHost : Option SpecVirtualHost
  routes : List SpecRoute
  tcpproxy : Option SpecTCPProxy
  status : String
deriving DecidableEq, Repr

/-- One certificate delegation record: a secret name and the namespaces it
is delegated to. -/
structure CertDelegation where
  secretName : String
  targetNamespaces : List String
deriving DecidableEq, Repr

/-- Embedding of a `TLSCertificateDelegation` (both API groups share the
shape). -/
structure TLSCertificateDelegationObj where
  meta : ObjMeta
  delegations : List CertDelegation
deriving DecidableEq, Repr

/-- The dynamic type of a value arriving at `Insert`/`Remove`/`onUpdate`
(Go `interface{}`), restricted to the kinds the type switches name.
`tombstone` embeds `cache.DeletedFinalStateUnknown`; `unknown` stands for
every type that falls to the `default` arm. -/
inductive Object where
  | secret (s : SecretObj)
  | service (s : ServiceObj)
  | ingress (i : IngressObj)
  | ingressRoute (ir : IngressRouteObj)
  | httpProxy (p : IngressRouteObj)
  | irDelegation (d : TLSCertificateDelegationObj)
  | proxyDelegation (d : TLSCertificateDelegationObj)
  | tombstone (obj : Object)
  | unknown
deriving DecidableEq, Repr

/-! ## The object cache (`KubernetesCache`) -/

/-- Embedding of `dag.KubernetesCache`: one Go map per kind, plus the
configuration fields.  The two `nil`-map initialisations in the Go code are
invisible here (an absent Go map and an empty one behave identically for
every read the core performs). -/
structure KubernetesCache where
  rootNamespaces : List String := []
  ingressClass : String := ""
  ingresses : List (Meta × IngressObj) := []
  ingressroutes : List (Meta × IngressRouteObj) := []
  httpproxies : List (Meta × IngressRouteObj) := []
  secrets : List (Meta × SecretObj) := []
  irdelegations : List (Meta × TLSCertificateDelegationObj) := []
  httpproxydelegations : List (Meta × TLSCertificateDelegationObj) := []
  services : List (Meta × ServiceObj) := []
deriving DecidableEq, Repr

/-- `DEFAULT_INGRESS_CLASS`. -/
def DEFAULT_INGRESS_CLASS : String := "contour"

/-- Embedding of `(*KubernetesCache).ingressClass` /
`stringOrDefault(kc.IngressClass, DEFAULT_INGRESS_CLASS)`. -/
def KubernetesCache.ingressClassCfg (kc : KubernetesCache) : String :=
  if kc.ingressClass = "" then DEFAULT_INGRESS_CLASS else kc.ingressClass

/-- Embedding of `dag.ingressClass` (annotations.go): the first present
annotation among the three recognised keys, else `""`.  Presence counts
even when the value is empty, exactly as `class, ok := a[k]` does. -/
def ingressClassOf (annotations : List (String × String)) : String :=
  match mapLookup "projectcontour.io/ingress.class" annotations with
  | some class0 => class0
  | none =>
    match mapLookup "contour.heptio.com/ingress.class" annotations with
    | some class1 => class1
    | none =>
      match mapLookup "kubernetes.io/ingress.class" annotations with
      | some class2 => class2
      | none => ""

/-- Embedding of `(*KubernetesCache).serviceTriggersRebuild`: true iff an
Ingress, IngressRoute or HTTPProxy in the service's namespace names the
service in a backend, rule path, route, or tcpproxy. -/
def serviceTriggersRebuild (kc : KubernetesCache) (service : ServiceObj) : Bool :=
  kc.ingresses.any (fun p =>
    p.2.meta.nspace = service.meta.nspace &&
      (optAny (fun backend => backend.serviceName = service.meta.name) p.2.backend ||
       p.2.rules.any (fun rule =>
         optAny (fun paths =>
           paths.any (fun path => path.serviceName = service.meta.name)) rule.http))) ||
  kc.ingressroutes.any (fun p =>
    p.2.meta.nspace = service.meta.nspace &&
      (p.2.routes.any (fun route =>
         route.services.any (fun s => s.name = service.meta.name)) ||
       optAny (fun tcpproxy =>
         tcpproxy.services.any (fun s => s.name = service.meta.name)) p.2.tcpproxy)) ||
  kc.httpproxies.any (fun p =>
    p.2.meta.nspace = service.meta.nspace &&
      (p.2.routes.any (fun route =>
         route.services.any (fun s => s.name = service.meta.name)) ||
       optAny (fun tcpproxy =>
         tcpproxy.services.any (fun s => s.name = service.meta.name)) p.2.tcpproxy))

/-- The set of keys of the `delegations` map built at the top of
`secretTriggersRebuild`: `targetnamespace/secretname` strings merged from
both TLSCertificateDelegation API groups. -/
def delegationKeys (kc : KubernetesCache) : List String :=
  (kc.irdelegations.flatMap fun p =>
    p.2.delegations.flatMap fun cd =>
      cd.targetNamespaces.map fun n => n ++ "/" ++ cd.secretName) ++
  (kc.httpproxydelegations.flatMap fun p =>
    p.2.delegations.flatMap fun cd =>
      cd.targetNamespaces.map fun n => n ++ "/" ++ cd.secretName)

/-- Embedding of `(*KubernetesCache).secretTriggersRebuild`. -/
def secretTriggersRebuild (kc : KubernetesCache) (secret : SecretObj) : Bool :=
  if secret.hasCA then
    -- any change to a CA secret is assumed to trigger a rebuild
    true
  else
    let delegations := delegationKeys kc
    kc.ingresses.any (fun p =>
      (p.2.meta.nspace = secret.meta.nspace &&
        p.2.tls.any (fun tls => tls.secretName = secret.meta.name)) ||
      (delegations.contains (p.2.meta.nspace ++ "/" ++ secret.meta.name) &&
        p.2.tls.any (fun tls =>
          tls.secretName = secret.meta.nspace ++ "/" ++ secret.meta.name)) ||
      (delegations.contains ("*/" ++ secret.meta.name) &&
        p.2.tls.any (fun tls =>
          tls.secretName = secret.meta.nspace ++ "/" ++ secret.meta.name))) ||
    kc.ingressroutes.any (fun p =>
      -- a nil virtualHost is not a root ingress; a nil tls is no tls spec
      optAny (fun vh =>
        optAny (fun tls =>
          (p.2.meta.nspace = secret.meta.nspace && tls.secretName = secret.meta.name) ||
          (delegations.contains (p.2.meta.nspace ++ "/" ++ secret.meta.name) &&
            tls.secretName = secret.meta.nspace ++ "/" ++ secret.meta.name) ||
          (delegations.contains ("*/" ++ secret.meta.name) &&
            tls.secretName = secret.meta.nspace ++ "/" ++ secret.meta.name)) vh.tls)
        p.2.virtualHost) ||
    kc.httpproxies.any (fun p =>
      optAny (fun vh =>
        optAny (fun tls =>
          (p.2.meta.nspace = secret.meta.nspace && tls.secretName = secret.meta.name) ||
          (delegations.contains (p.2.meta.nspace ++ "/" ++ secret.meta.name) &&
            tls.secretName = secret.meta.nspace ++ "/" ++ secret.meta.name) ||
          (delegations.contains ("*/" ++ secret.meta.name) &&
            tls.secretName = secret.meta.nspace ++ "/" ++ secret.meta.name)) vh.tls)
        p.2.virtualHost)

/-- Embedding of `(*KubernetesCache).Insert`.  In Go the receiver is
mutated and a `bool` returned; here the new cache is returned alongside the
boolean.  Note that for Secrets and Services the object is stored first and
the rebuild predicate evaluated on the updated cache, exactly as the Go
code does. -/
def KubernetesCache.insert (kc : KubernetesCache) (obj : Object) :
    KubernetesCache × Bool :=
  match obj with
  | .secret s =>
    if s.type = secretTypeServiceAccountToken then
      -- ignore service account tokens, see #1419
      (kc, false)
    else if s.type ≠ secretTypeTLS && !s.hasCA then
      -- ignore everything but kubernetes.io/tls secrets and secrets with a ca.crt key
      (kc, false)
    else
      let kc' := { kc with secrets := mapInsert (toMeta s.meta) s kc.secrets }
      (kc', secretTriggersRebuild kc' s)
  | .service s =>
    let kc' := { kc with services := mapInsert (toMeta s.meta) s kc.services }
    (kc', serviceTriggersRebuild kc' s)
  | .ingress i =>
    let class0 := ingressClassOf i.meta.annotations
    if class0 ≠ "" && class0 ≠ kc.ingressClassCfg then (kc, false)
    else ({ kc with ingresses := mapInsert (toMeta i.meta) i kc.ingresses }, true)
  | .ingressRoute ir =>
    let class0 := ingressClassOf ir.meta.annotations
    if class0 ≠ "" && class0 ≠ kc.ingressClassCfg then (kc, false)
    else ({ kc with ingressroutes := mapInsert (toMeta ir.meta) ir kc.ingressroutes }, true)
  | .httpProxy p =>
    let class0 := ingressClassOf p.meta.annotations
    if class0 ≠ "" && class0 ≠ kc.ingressClassCfg then (kc, false)
    else ({ kc with httpproxies := mapInsert (toMeta p.meta) p kc.httpproxies }, true)
  | .irDelegation d =>
    ({ kc with irdelegations := mapInsert (toMeta d.meta) d kc.irdelegations }, true)
  | .proxyDelegation d =>
    ({ kc with httpproxydelegations := mapInsert (toMeta d.meta) d kc.httpproxydelegations }, true)
  | _ =>
    -- not an interesting object
    (kc, false)

/-- Embedding of the private `(*KubernetesCache).remove`. -/
def KubernetesCache.removeInner (kc : KubernetesCache) (obj : Object) :
    KubernetesCache × Bool :=
  match obj with
  | .secret s =>
    let m := toMeta s.meta
    ({ kc with secrets := mapRemove m kc.secrets }, mapHasKey m kc.secrets)
  | .service s =>
    let m := toMeta s.meta
    ({ kc with services := mapRemove m kc.services }, mapHasKey m kc.services)
  | .ingress i =>
    let m := toMeta i.meta
    ({ kc with ingresses := mapRemove m kc.ingresses }, mapHasKey m kc.ingresses)
  | .ingressRoute ir =>
    let m := toMeta ir.meta
    ({ kc with ingressroutes := mapRemove m kc.ingressroutes }, mapHasKey m kc.ingressroutes)
  | .httpProxy p =>
    let m := toMeta p.meta
    ({ kc with httpproxies := mapRemove m kc.httpproxies }, mapHasKey m kc.httpproxies)
  | .irDelegation d =>
    let m := toMeta d.meta
    ({ kc with irdelegations := mapRemove m kc.irdelegations }, mapHasKey m kc.irdelegations)
  | .proxyDelegation d =>
    let m := toMeta d.meta
    ({ kc with httpproxydelegations := mapRemove m kc.httpproxydelegations },
     mapHasKey m kc.httpproxydelegations)
  | _ =>
    -- not interesting
    (kc, false)

/-- Embedding of `(*KubernetesCache).Remove`: a tombstone
(`cache.DeletedFinalStateUnknown`) is unwrapped and the removal recurses. -/
def KubernetesCache.remove (kc : KubernetesCache) : Object → KubernetesCache × Bool
  | .tombstone inner => kc.remove inner
  | obj => kc.removeInner obj

/-! ## The event handler (`cond.go`, `EventHandler.onUpdate`)

`onUpdate` compares the old and new object with
`cmp.Equal(old, new, cmpopts.IgnoreFields(ingressroutev1.IngressRoute{}, "Status"),
cmpopts.IgnoreFields(metav1.ObjectMeta{}, "ResourceVersion"))`.
That masks `ResourceVersion` on every object's metadata, but masks the
`Status` subresource only on values of the `IngressRoute` type.  The
embedding scrubs exactly those fields before structural comparison. -/

/-- Clear `ResourceVersion` in an object's metadata (the effect of
`cmpopts.IgnoreFields(metav1.ObjectMeta{}, "ResourceVersion")`). -/
def scrubMeta (m : ObjMeta) : ObjMeta :=
  { m with resourceVersion := "" }

/-- Apply the `ResourceVersion` mask to every metadata in an object. -/
def scrubRV : Object → Object
  | .secret s => .secret { s with meta := scrubMeta s.meta }
  | .service s => .service { s with meta := scrubMeta s.meta }
  | .ingress i => .ingress { i with meta := scrubMeta i.meta }
  | .ingressRoute ir => .ingressRoute { ir with meta := scrubMeta ir.meta }
  | .httpProxy p => .httpProxy { p with meta := scrubMeta p.meta }
  | .irDelegation d => .irDelegation { d with meta := scrubMeta d.meta }
  | .proxyDelegation d => .proxyDelegation { d with meta := scrubMeta d.meta }
  | .tombstone o => .tombstone (scrubRV o)
  | .unknown => .unknown

/-- Apply the `IngressRoute`-only `Status` mask: clear `Status` on
`IngressRoute` values and on nothing else. -/
def scrubIngressRouteStatus : Object → Object
  | .ingressRoute ir => .ingressRoute { ir with status := "" }
  | .tombstone o => .tombstone (scrubIngressRouteStatus o)
  | o => o

/-- The masked equality used by `onUpdate`: structural equality after both
masks.  `cmp.Equal` on two values of different dynamic types is `false`,
which the constructor mismatch reproduces. -/
def maskedEqual (a b : Object) : Bool :=
  scrubIngressRouteStatus (scrubRV a) = scrubIngressRouteStatus (scrubRV b)

/-- The operations fed to `onUpdate` (`opAdd`, `opUpdate`, `opDelete`). -/
inductive Op where
  | add (obj : Object)
  | update (oldObj newObj : Object)
  | delete (obj : Object)
deriving DecidableEq, Repr

/-- Embedding of `(*EventHandler).onUpdate`: returns the updated object
store (`e.Builder.Source`) together with the boolean that decides whether a
rebuild is enqueued.  A `false` return leaves the holdoff machinery
untouched, so no DAG rebuild, no cache replacement, and no version bump
follows from the event. -/
def onUpdate (kc : KubernetesCache) (op : Op) : KubernetesCache × Bool :=
  match op with
  | .add obj => kc.insert obj
  | .update oldObj newObj =>
    if maskedEqual oldObj newObj then
      -- skipping update, only status has changed
      (kc, false)
    else
      let (kc1, removed) := kc.remove oldObj
      let (kc2, inserted) := kc1.insert newObj
      (kc2, removed || inserted)
  | .delete obj => kc.remove obj

/-! ## The notification primitive (`Cond`)

`Cond.last` is a Go `int` counting `Notify` calls; it is embedded as `Nat`
(one increment per call — the count of notifications, unreachable from any
overflow boundary by intent).  Waiter channels are identified by `Nat` ids;
the map `waiters map[chan int][]string` becomes an association list, and a
channel send `ch <- v` is recorded as the pair `(ch, v)` in the list of
sends an operation produces. -/

/-- Embedding of `contour.Cond`. -/
structure Cond where
  waiters : List (Nat × List String) := []
  last : Nat := 0
deriving DecidableEq, Repr

/-- Embedding of `(*Cond).Register`: if the caller's `last` is behind the
internal counter it has missed a notification and is fired immediately
(without being enqueued); otherwise the channel is enqueued with its
hints. -/
def Cond.register (c : Cond) (ch : Nat) (last : Nat) (hints : List String) :
    Cond × List (Nat × Nat) :=
  if last < c.last then
    -- notify this channel immediately
    (c, [(ch, c.last)])
  else
    ({ c with waiters := mapInsert ch hints c.waiters }, [])

/-- Does a waiter registered with `waiterHints` fire for a `Notify` carrying
`hints`?  (`len(hints) == 0` always fires; otherwise any overlap fires.) -/
def hintsMatch (notifyHints waiterHints : List String) : Bool :=
  waiterHints.isEmpty || waiterHints.any (fun h => notifyHints.contains h)

/-- Embedding of `(*Cond).Notify`: increment the counter, then deliver the
new counter value to every waiter whose hints match and deregister it. -/
def Cond.notify (c : Cond) (hints : List String) : Cond × List (Nat × Nat) :=
  let newLast := c.last + 1
  let fired := c.waiters.filter (fun w => hintsMatch hints w.2)
  let remaining := c.waiters.filter (fun w => !hintsMatch hints w.2)
  ({ waiters := remaining, last := newLast }, fired.map (fun w => (w.1, newLast)))

/-- One interaction with a `Cond`. -/
inductive CondOp where
  | register (ch : Nat) (last : Nat) (hints : List String)
  | notify (hints : List String)
deriving DecidableEq, Repr

/-- Run one interaction. -/
def Cond.step (c : Cond) : CondOp → Cond × List (Nat × Nat)
  | .register ch last hints => c.register ch last hints
  | .notify hints => c.notify hints

/-- Run a sequence of interactions, accumulating the sends. -/
def Cond.run (c : Cond) : List CondOp → Cond × List (Nat × Nat)
  | [] => (c, [])
  | op :: ops =>
    let (c', sends) := c.step op
    let (c'', sends') := c'.run ops
    (c'', sends ++ sends')

/-! ## The DAG route model (`internal/dag/dag.go`) -/

/-- Embedding of `dag.TimeoutPolicy`.  `Timeout` is a `time.Duration`
(`int64` nanoseconds): `0` means "use envoy's default", `-1` represents
"infinity". -/
structure TimeoutPolicy where
  timeout : Int
deriving DecidableEq, Repr

/-- Embedding of `dag.RetryPolicy`. -/
structure RetryPolicy where
  retryOn : String
  numRetries : Nat
  perTryTimeout : Int
deriving DecidableEq, Repr

/-- Embedding of `dag.Cluster` through the lens of the route translation:
the envoy cluster name `Clustername(c)` (the hashing helper is defined
outside the provided sources and is irrelevant to the claims, so the name
is carried directly) and the `uint32` weight. -/
structure ClusterModel where
  envoyName : String
  weight : Nat
deriving DecidableEq, Repr

/-- Embedding of `dag.Route`: the fields the verified translation reads. -/
structure Route where
  clusters : List ClusterModel := []
  httpsUpgrade : Bool := false
  websocket : Bool := false
  timeoutPolicy : Option TimeoutPolicy := none
  retryPolicy : Option RetryPolicy := none
  prefixRewrite : String := ""
deriving DecidableEq, Repr

/-! ## The envoy route translation (part_003, package `envoy`) -/

/-- Embedding of `envoy.timeout`: `nil` policy or a `0` value yield no
timeout field; `-1` yields a literal zero duration (envoy's "infinite
timeout"); anything else is passed through. -/
def timeout (r : Route) : Option Int :=
  match r.timeoutPolicy with
  | none => none
  | some tp =>
    if tp.timeout = 0 then
      -- no timeout specified
      none
    else if tp.timeout = -1 then
      -- infinite timeout: a pointer to zero tells envoy "infinite timeout"
      some 0
    else
      some tp.timeout

/-- The emitted `envoy_api_v2_route.RetryPolicy`: proto wrapper fields are
`Option`s, absent meaning the data-plane default. -/
structure EnvoyRetryPolicy where
  retryOn : String
  numRetries : Option Nat := none
  perTryTimeout : Option Int := none
deriving DecidableEq, Repr

/-- Embedding of `envoy.retryPolicy`: no policy when the route has none or
`RetryOn` is empty; otherwise `NumRetries`/`PerTryTimeout` wrappers are set
only when the source values are positive. -/
def retryPolicy (r : Route) : Option EnvoyRetryPolicy :=
  match r.retryPolicy with
  | none => none
  | some rp =>
    if rp.retryOn = "" then none
    else
      some { retryOn := rp.retryOn
             numRetries := if rp.numRetries > 0 then some rp.numRetries else none
             perTryTimeout := if rp.perTryTimeout > 0 then some rp.perTryTimeout else none }

/-- Modelled from the spec: the data plane interprets an absent
`numRetries` wrapper as 1 (dag.go: "defaults to 1 if RetryOn is set"). -/
def effectiveNumRetries (numRetries : Option Nat) : Nat :=
  numRetries.getD 1

/-- One emitted `WeightedCluster_ClusterWeight`. -/
structure ClusterWeight where
  name : String
  weight : Nat
deriving DecidableEq, Repr

/-- The emitted `envoy_api_v2_route.WeightedCluster`. -/
structure WeightedCluster where
  clusters : List ClusterWeight
  totalWeight : Nat
deriving DecidableEq, Repr

/-- Lexicographic order on character lists: the semantics of Go's `<` on
strings (byte-wise for the ASCII names at hand). -/
def charListLess : List Char → List Char → Bool
  | [], [] => false
  | [], _ :: _ => true
  | _ :: _, [] => false
  | c :: cs, d :: ds => c < d || (c = d && charListLess cs ds)

/-- Go string `<`. -/
def strLess (a b : String) : Bool :=
  charListLess a.data b.data

/-- `clusterWeightByName.Less`: by name, then by weight. -/
def clusterWeightLess (a b : ClusterWeight) : Bool :=
  if a.name = b.name then a.weight < b.weight else strLess a.name b.name

/-- Stable insertion of one element into a sorted list: an element moves
past another only when strictly less, which preserves the relative order of
equal elements — the `sort.Stable` contract. -/
def insertStable (x : ClusterWeight) : List ClusterWeight → List ClusterWeight
  | [] => [x]
  | y :: ys => if clusterWeightLess x y then x :: y :: ys else y :: insertStable x ys

/-- Stable sort by `clusterWeightLess`; the embedding of
`sort.Stable(clusterWeightByName(wc.Clusters))`. -/
def sortClusterWeights : List ClusterWeight → List ClusterWeight
  | [] => []
  | x :: xs => insertStable x (sortClusterWeights xs)

/-- `uint32` wraparound. -/
def u32 (n : Nat) : Nat := n % 2 ^ 32

/-- The `total += cluster.Weight` accumulation, in `uint32` arithmetic. -/
def u32sum (clusters : List ClusterModel) : Nat :=
  clusters.foldl (fun t c => u32 (t + c.weight)) 0

/-- Embedding of `envoy.weightedClusters`: accumulate the `uint32` total
while emitting each cluster's name and weight; if the total is zero,
rewrite every emitted weight to 1 and the total to `uint32(len(clusters))`;
finally sort stably by (name, weight). -/
def weightedClusters (clusters : List ClusterModel) : WeightedCluster :=
  let total := u32sum clusters
  let wcs := clusters.map fun c => ClusterWeight.mk c.envoyName c.weight
  -- check if no weights were defined, if not default to even distribution
  let (wcs, total) :=
    if total = 0 then (wcs.map fun w => { w with weight := 1 }, u32 clusters.length)
    else (wcs, total)
  { clusters := sortClusterWeights wcs, totalWeight := total }

/-! ## The DAG vertex model and `VirtualHost.addRoute` -/

/-- The `dag.Vertex` implementors that can reach `addRoute`'s type switch:
the two route shapes it accepts, and the other vertex kinds of dag.go
(each collapsed to its identifying payload) that hit the panicking
`default` arm. -/
inductive DagVertex where
  | prefixRoute (prefixMatch : String) (route : Route)
  | regexRoute (regex : String) (route : Route)
  | cluster (c : ClusterModel)
  | serviceVertex (nspace name : String) (port : Nat)
  | secretVertex (nspace name : String)
  | tcpproxyVertex (clusters : List ClusterModel)
deriving DecidableEq, Repr

/-- Embedding of `dag.VirtualHost`: a name and the `routes` map keyed by
the match expression. -/
structure DagVirtualHost where
  name : String
  routes : List (String × DagVertex) := []
deriving DecidableEq, Repr

/-- Embedding of `(*VirtualHost).addRoute`: key a `PrefixRoute` by its
prefix and a `RegexRoute` by its regex, overwriting any entry under the
same key; any other vertex shape panics, embedded as `none`. -/
def addRoute (v : DagVirtualHost) (route : DagVertex) : Option DagVirtualHost :=
  match route with
  | .prefixRoute prefix0 r =>
    some { v with routes := mapInsert prefix0 (.prefixRoute prefix0 r) v.routes }
  | .regexRoute regex r =>
    some { v with routes := mapInsert regex (.regexRoute regex r) v.routes }
  | _ => none -- panic: unexpected route type

/-- The match key `addRoute` files a vertex under, when it accepts it. -/
def routeKey : DagVertex → Option String
  | .prefixRoute prefix0 _ => some prefix0
  | .regexRoute regex _ => some regex
  | _ => none

/-! ## Specification-side predicates

These definitions follow the wording of the spec and the claims (not the
code); the theorems below relate them to the embedded source functions. -/

/-- Is `op` a registration of channel `ch`? -/
def isRegisterOf (ch : Nat) : CondOp → Bool
  | .register ch' _ _ => ch' = ch
  | _ => false

/-- All delegation records in the cache, merged from both
TLSCertificateDelegation API groups. -/
def delegationEntries (kc : KubernetesCache) : List CertDelegation :=
  (kc.irdelegations.flatMap fun p => p.2.delegations) ++
  (kc.httpproxydelegations.flatMap fun p => p.2.delegations)

/-- The spec's delegation rule: some delegation record delegates the secret
name to the root's namespace, or to the wildcard `*`. -/
def DelegationPermits (kc : KubernetesCache) (secretName rootNs : String) : Prop :=
  ∃ cd ∈ delegationEntries kc, cd.secretName = secretName ∧
    (rootNs ∈ cd.targetNamespaces ∨ "*" ∈ cd.targetNamespaces)

/-- The claim's reference condition for a secret: some TLS spec of a stored
Ingress, IngressRoute root, or HTTPProxy root references the secret in the
secret's own namespace (by bare name), or cross-namespace (by
`namespace/name`) via a permitting delegation. -/
def SecretReferenced (kc : KubernetesCache) (sec : SecretObj) : Prop :=
  (∃ p ∈ kc.ingresses,
     (p.2.meta.nspace = sec.meta.nspace ∧
        ∃ tls ∈ p.2.tls, tls.secretName = sec.meta.name) ∨
     ((∃ tls ∈ p.2.tls,
         tls.secretName = sec.meta.nspace ++ "/" ++ sec.meta.name) ∧
        DelegationPermits kc sec.meta.name p.2.meta.nspace)) ∨
  (∃ p ∈ kc.ingressroutes, ∃ vh tls,
     p.2.virtualHost = some vh ∧ vh.tls = some tls ∧
     ((p.2.meta.nspace = sec.meta.nspace ∧ tls.secretName = sec.meta.name) ∨
      (tls.secretName = sec.meta.nspace ++ "/" ++ sec.meta.name ∧
        DelegationPermits kc sec.meta.name p.2.meta.nspace))) ∨
  (∃ p ∈ kc.httpproxies, ∃ vh tls,
     p.2.virtualHost = some vh ∧ vh.tls = some tls ∧
     ((p.2.meta.nspace = sec.meta.nspace ∧ tls.secretName = sec.meta.name) ∨
      (tls.secretName = sec.meta.nspace ++ "/" ++ sec.meta.name ∧
        DelegationPermits kc sec.meta.name p.2.meta.nspace)))

/-- The claim's reference condition for a service: some Ingress,
IngressRoute or HTTPProxy in the service's namespace names it in a
backend, rule path, route, or tcpproxy. -/
def ServiceReferenced (kc : KubernetesCache) (svc : ServiceObj) : Prop :=
  (∃ p ∈ kc.ingresses, p.2.meta.nspace = svc.meta.nspace ∧
     ((∃ b, p.2.backend = some b ∧ b.serviceName = svc.meta.name) ∨
      ∃ rule ∈ p.2.rules, ∃ paths, rule.http = some paths ∧
        ∃ path ∈ paths, path.serviceName = svc.meta.name)) ∨
  (∃ p ∈ kc.ingressroutes, p.2.meta.nspace = svc.meta.nspace ∧
     ((∃ route ∈ p.2.routes, ∃ s ∈ route.services, s.name = svc.meta.name) ∨
      ∃ tp, p.2.tcpproxy = some tp ∧ ∃ s ∈ tp.services, s.name = svc.meta.name)) ∨
  (∃ p ∈ kc.httpproxies, p.2.meta.nspace = svc.meta.nspace ∧
     ((∃ route ∈ p.2.routes, ∃ s ∈ route.services, s.name = svc.meta.name) ∨
      ∃ tp, p.2.tcpproxy = some tp ∧ ∃ s ∈ tp.services, s.name = svc.meta.name))

/-- Kubernetes object names and namespaces are DNS labels and cannot
contain `/`.  The delegation map of `secretTriggersRebuild` keys on the
concatenation `targetnamespace/secretname`, so this well-formedness of the
namespaces appearing as key prefixes is what makes the lookup faithful to
its components. -/
def namespacesSlashFree (kc : KubernetesCache) : Bool :=
  kc.ingresses.all (fun p => !p.2.meta.nspace.data.contains '/') &&
  kc.ingressroutes.all (fun p => !p.2.meta.nspace.data.contains '/') &&
  kc.httpproxies.all (fun p => !p.2.meta.nspace.data.contains '/') &&
  (delegationEntries kc).all
    (fun cd => cd.targetNamespaces.all (fun n => !n.data.contains '/'))

/-! ## Helper lemmas -/

theorem mapInsert_override {K V : Type} [DecidableEq K] (k : K) (v1 v2 : V)
    (l : List (K × V)) :
    mapInsert k v2 (mapInsert k v1 l) = mapInsert k v2 l := by
  induction l with
  | nil => simp [mapInsert]
  | cons hd tl ih =>
    obtain ⟨k', v'⟩ := hd
    by_cases h : k' = k
    · simp [mapInsert, h]
    · simp [mapInsert, h, ih]

theorem mapLookup_mapInsert_self {K V : Type} [DecidableEq K] (k : K) (v : V)
    (l : List (K × V)) :
    mapLookup k (mapInsert k v l) = some v := by
  induction l with
  | nil => simp [mapInsert, mapLookup]
  | cons hd tl ih =>
    obtain ⟨k', v'⟩ := hd
    by_cases h : k' = k
    · simp [mapInsert, mapLookup, h]
    · simp [mapInsert, mapLookup, h, ih]

/-! ## C1: timeout policy encoding -/

/-- C1: for every route carrying a timeout policy, a policy value of `0`
produces no timeout field (data-plane default), `-1` produces a literal
zero duration (infinite timeout), and any other value is encoded
verbatim. -/
theorem timeout_policy_encoding (r : Route) (tp : TimeoutPolicy)
    (h : r.timeoutPolicy = some tp) :
    (tp.timeout = 0 → timeout r = none) ∧
    (tp.timeout = -1 → timeout r = some 0) ∧
    (tp.timeout ≠ 0 → tp.timeout ≠ -1 → timeout r = some tp.timeout) := by
  refine ⟨?_, ?_, ?_⟩
  · intro h0
    simp [timeout, h, h0]
  · intro h1
    simp [timeout, h, h1]
  · intro h0 h1
    simp [timeout, h, h0, h1]

/-- Witness for C1 at the `-1` sentinel. -/
theorem timeout_policy_encoding_witness :
    ({ timeoutPolicy := some ⟨-1⟩ } : Route).timeoutPolicy = some ⟨-1⟩ ∧
    timeout { timeoutPolicy := some ⟨-1⟩ } = some 0 :=
  ⟨rfl, (timeout_policy_encoding { timeoutPolicy := some ⟨-1⟩ } ⟨-1⟩ rfl).2.1 rfl⟩

/-! ## C3: retry policy encoding -/

/-- C3: a route with no retry policy or an empty `retryOn` gets no retry
policy; with a non-empty `retryOn` a policy is emitted whose `numRetries`
wrapper is omitted when the source count is unspecified (so the data plane
defaults it to 1) and whose `perTryTimeout` is omitted when the source
per-try timeout is absent. -/
theorem retry_policy_encoding (r : Route) :
    ((r.retryPolicy = none ∨ ∃ rp, r.retryPolicy = some rp ∧ rp.retryOn = "") →
      retryPolicy r = none) ∧
    (∀ rp, r.retryPolicy = some rp → rp.retryOn ≠ "" →
      ∃ erp, retryPolicy r = some erp ∧ erp.retryOn = rp.retryOn ∧
        (rp.numRetries = 0 →
          erp.numRetries = none ∧ effectiveNumRetries erp.numRetries = 1) ∧
        (rp.perTryTimeout ≤ 0 → erp.perTryTimeout = none)) := by
  constructor
  · rintro (h | ⟨rp, h, hempty⟩)
    · simp [retryPolicy, h]
    · simp [retryPolicy, h, hempty]
  · intro rp h hne
    refine ⟨{ retryOn := rp.retryOn,
              numRetries := if rp.numRetries > 0 then some rp.numRetries else none,
              perTryTimeout := if rp.perTryTimeout > 0 then some rp.perTryTimeout else none },
            by simp [retryPolicy, h, hne], rfl, ?_, ?_⟩
    · intro h0
      simp [h0, effectiveNumRetries]
    · intro h0
      simp [not_lt.mpr h0]

/-- Witness for C3: `retryOn = "5xx"`, unspecified count and per-try
timeout. -/
theorem retry_policy_encoding_witness :
    ({ retryPolicy := some ⟨"5xx", 0, 0⟩ } : Route).retryPolicy = some ⟨"5xx", 0, 0⟩ ∧
    ("5xx" : String) ≠ "" ∧
    ∃ erp, retryPolicy { retryPolicy := some ⟨"5xx", 0, 0⟩ } = some erp ∧
      erp.retryOn = "5xx" ∧ erp.numRetries = none ∧
      effectiveNumRetries erp.numRetries = 1 ∧ erp.perTryTimeout = none := by
  refine ⟨rfl, by decide, ?_⟩
  obtain ⟨erp, h1, h2, h3, h4⟩ :=
    (retry_policy_encoding { retryPolicy := some ⟨"5xx", 0, 0⟩ }).2
      ⟨"5xx", 0, 0⟩ rfl (by decide)
  exact ⟨erp, h1, h2, (h3 rfl).1, (h3 rfl).2, h4 le_rfl⟩

/-! ## C10: `addRoute` accepts exactly the two route shapes -/

/-- C10: `addRoute` panics (embedded as `none`) exactly on vertices that
are neither a `PrefixRoute` nor a `RegexRoute`; on those two shapes it
never fails, files the route under its match key, and a later route with
the same key overwrites an earlier one. -/
theorem addRoute_route_shapes (v : DagVirtualHost) (route : DagVertex) :
    (addRoute v route = none ↔ routeKey route = none) ∧
    (∀ k, routeKey route = some k →
      addRoute v route = some { v with routes := mapInsert k route v.routes } ∧
      ∀ v', addRoute v route = some v' → mapLookup k v'.routes = some route) ∧
    (∀ k route2, routeKey route = some k → routeKey route2 = some k →
      (addRoute v route).bind (fun v1 => addRoute v1 route2) = addRoute v route2) := by
  refine ⟨?_, ?_, ?_⟩
  · cases route <;> simp [addRoute, routeKey]
  · intro k hk
    cases route <;> simp_all [addRoute, routeKey] <;>
      simp [mapLookup_mapInsert_self]
  · intro k route2 hk hk2
    cases route <;> simp_all [routeKey] <;>
      cases route2 <;> simp_all [addRoute, routeKey] <;>
        simp [mapInsert_override]

/-- Witness for C10: a non-route vertex is rejected; a prefix route with
the same key overwrites. -/
theorem addRoute_route_shapes_witness :
    addRoute ⟨"vh", []⟩ (.secretVertex "default" "tls") = none ∧
    (addRoute ⟨"vh", []⟩ (.prefixRoute "/" {})).bind
        (fun v1 => addRoute v1 (.prefixRoute "/" { websocket := true })) =
      addRoute ⟨"vh", []⟩ (.prefixRoute "/" { websocket := true }) := by
  constructor
  · exact (addRoute_route_shapes ⟨"vh", []⟩ (.secretVertex "default" "tls")).1.mpr rfl
  · exact (addRoute_route_shapes ⟨"vh", []⟩ (.prefixRoute "/" {})).2.2 "/"
      (.prefixRoute "/" { websocket := true }) rfl rfl

/-! ## C8: registration is a rendezvous -/

/-- C8: a waiter registering with a last-seen version strictly behind the
counter is fired immediately with the current counter value and not
enqueued; otherwise it is enqueued (with its hints) and nothing is sent. -/
theorem register_rendezvous (c : Cond) (ch last0 : Nat) (hints : List String) :
    (last0 < c.last →
      c.register ch last0 hints = (c, [(ch, c.last)])) ∧
    (¬ last0 < c.last →
      c.register ch last0 hints =
        ({ c with waiters := mapInsert ch hints c.waiters }, []) ∧
      mapLookup ch (c.register ch last0 hints).1.waiters = some hints) := by
  constructor
  · intro h
    simp [Cond.register, h]
  · intro h
    simp [Cond.register, h, mapLookup_mapInsert_self]

/-- Witness for C8: both the behind (fire now) and the current (enqueue)
case at concrete states. -/
theorem register_rendezvous_witness :
    (3 < 5 ∧ Cond.register ⟨[], 5⟩ 1 3 [] = (⟨[], 5⟩, [(1, 5)])) ∧
    (¬ 5 < 5 ∧ Cond.register ⟨[], 5⟩ 1 5 ["ingress_http"] =
      (⟨[(1, ["ingress_http"])], 5⟩, [])) :=
  ⟨⟨by decide, (register_rendezvous ⟨[], 5⟩ 1 3 []).1 (by decide)⟩,
   ⟨by decide, ((register_rendezvous ⟨[], 5⟩ 1 5 ["ingress_http"]).2 (by decide)).1⟩⟩

/-! ## C6: inserting twice is inserting once -/

/-- C6: for every object, inserting it a second time leaves the cache in
the state reached after the first insert and returns the same boolean:
double insertion is indistinguishable from single insertion.  (This holds
for accepted and rejected objects alike; a rejected object leaves the
cache untouched and returns `false` both times.) -/
theorem insert_idempotent (kc : KubernetesCache) (obj : Object) :
    ((kc.insert obj).1).insert obj = kc.insert obj := by
  cases obj with
  | secret s =>
    by_cases h1 : s.type = secretTypeServiceAccountToken
    · simp [KubernetesCache.insert, h1]
    · by_cases h2 : s.type ≠ secretTypeTLS ∧ s.hasCA = false
      · simp [KubernetesCache.insert, h1, h2.1, h2.2]
      · rw [not_and_or, not_not] at h2
        rcases h2 with h2 | h2
        · simp [KubernetesCache.insert, h1, h2, mapInsert_override,
            secretTypeTLS, secretTypeServiceAccountToken]
        · rw [Bool.not_eq_false] at h2
          simp [KubernetesCache.insert, h1, h2, mapInsert_override]
  | service s => simp [KubernetesCache.insert, mapInsert_override]
  | ingress i =>
    by_cases h : ingressClassOf i.meta.annotations ≠ "" ∧
        ingressClassOf i.meta.annotations ≠ kc.ingressClassCfg
    · simp [KubernetesCache.insert, h.1, h.2]
    · rw [not_and_or, not_not, not_not] at h
      rcases h with h | h <;>
        simp [KubernetesCache.insert, KubernetesCache.ingressClassCfg, h,
          mapInsert_override]
  | ingressRoute ir =>
    by_cases h : ingressClassOf ir.meta.annotations ≠ "" ∧
        ingressClassOf ir.meta.annotations ≠ kc.ingressClassCfg
    · simp [KubernetesCache.insert, h.1, h.2]
    · rw [not_and_or, not_not, not_not] at h
      rcases h with h | h <;>
        simp [KubernetesCache.insert, KubernetesCache.ingressClassCfg, h,
          mapInsert_override]
  | httpProxy p =>
    by_cases h : ingressClassOf p.meta.annotations ≠ "" ∧
        ingressClassOf p.meta.annotations ≠ kc.ingressClassCfg
    · simp [KubernetesCache.insert, h.1, h.2]
    · rw [not_and_or, not_not, not_not] at h
      rcases h with h | h <;>
        simp [KubernetesCache.insert, KubernetesCache.ingressClassCfg, h,
          mapInsert_override]
  | irDelegation d => simp [KubernetesCache.insert, mapInsert_override]
  | proxyDelegation d => simp [KubernetesCache.insert, mapInsert_override]
  | tombstone o => simp [KubernetesCache.insert]
  | unknown => simp [KubernetesCache.insert]

/-! ## C7: Notify increments by one and waiters observe increasing versions -/

theorem notify_last_succ (c : Cond) (hints : List String) :
    ((c.notify hints).1).last = c.last + 1 := rfl

theorem notify_sends_last (c : Cond) (hints : List String) :
    ∀ p ∈ (c.notify hints).2, p.2 = c.last + 1 := by
  intro p hp
  simp only [Cond.notify, List.mem_map, List.mem_filter] at hp
  obtain ⟨w, _, rfl⟩ := hp
  rfl

theorem register_sends_last (c : Cond) (ch last0 : Nat) (hints : List String) :
    ∀ p ∈ (c.register ch last0 hints).2, p.2 = c.last := by
  intro p hp
  by_cases h : last0 < c.last <;> simp [Cond.register, h] at hp
  rw [hp]

theorem step_last_mono (c : Cond) (op : CondOp) : c.last ≤ (c.step op).1.last := by
  cases op with
  | register ch l hs =>
    by_cases hlt : l < c.last <;> simp [Cond.step, Cond.register, hlt]
  | notify hs => exact Nat.le_succ _

theorem run_cons (c : Cond) (op : CondOp) (ops : List CondOp) :
    c.run (op :: ops) =
      (((c.step op).1.run ops).1, (c.step op).2 ++ ((c.step op).1.run ops).2) := by
  rcases h : c.step op with ⟨c', sends⟩
  rcases h2 : c'.run ops with ⟨c'', sends'⟩
  simp [Cond.run, h, h2]

theorem run_sends_gt (ch v : Nat) :
    ∀ (ops : List CondOp) (c : Cond), v ≤ c.last →
      ops.all (fun op => !isRegisterOf ch op) = true →
      ∀ val, (ch, val) ∈ (c.run ops).2 → v < val := by
  intro ops
  induction ops with
  | nil =>
    intro c hv hall val hmem
    simp [Cond.run] at hmem
  | cons op rest ih =>
    intro c hv hall val hmem
    simp only [List.all_cons, Bool.and_eq_true] at hall
    rw [run_cons] at hmem
    rcases List.mem_append.mp hmem with hstep | hrun
    · cases op with
      | register ch' l hs =>
        have hne : ch' ≠ ch := by
          simpa [isRegisterOf] using hall.1
        by_cases hlt : l < c.last <;>
          simp [Cond.step, Cond.register, hlt] at hstep
        exact absurd hstep.1.symm hne
      | notify hs =>
        have := notify_sends_last c hs (ch, val) hstep
        simp only at this
        omega
    · exact ih _ (le_trans hv (step_last_mono c op)) hall.2 val hrun

theorem register_last_eq (c : Cond) (ch l : Nat) (hs : List String) :
    (c.register ch l hs).1.last = c.last := by
  by_cases hlt : l < c.last <;> simp [Cond.register, hlt]

/-- C7: every `Notify` increments the version counter by exactly one;
every version a `Notify` delivers equals the counter's value after that
increment; every version an immediate-fire `Register` delivers equals the
counter's current value; and a waiter that registers with a last-seen
version `v ≤ last` (a version it could actually have observed) only ever
receives values strictly greater than `v`, for any subsequent interaction
sequence in which it does not re-register — so the versions one waiter
observes across successive registrations are strictly increasing. -/
theorem notify_versions_monotonic :
    (∀ (c : Cond) (hints : List String), ((c.notify hints).1).last = c.last + 1) ∧
    (∀ (c : Cond) (hints : List String), ∀ p ∈ (c.notify hints).2,
       p.2 = ((c.notify hints).1).last) ∧
    (∀ (c : Cond) (ch last0 : Nat) (hints : List String),
       ∀ p ∈ (c.register ch last0 hints).2, p.2 = c.last) ∧
    (∀ (c : Cond) (ch v : Nat) (hs : List String) (ops : List CondOp),
       v ≤ c.last → ops.all (fun op => !isRegisterOf ch op) = true →
       ∀ val, (ch, val) ∈ (c.run (CondOp.register ch v hs :: ops)).2 → v < val) := by
  refine ⟨notify_last_succ,
          fun c hints p hp => by rw [notify_sends_last c hints p hp, notify_last_succ],
          register_sends_last, ?_⟩
  intro c ch v hs ops hv hall val hmem
  rw [run_cons] at hmem
  rcases List.mem_append.mp hmem with hstep | hrun
  · have hval := register_sends_last c ch v hs (ch, val) hstep
    by_cases hlt : v < c.last
    · simp only at hval
      omega
    · simp [Cond.step, Cond.register, hlt] at hstep
  · refine run_sends_gt ch v ops _ ?_ hall val hrun
    show v ≤ (c.register ch v hs).1.last
    rw [register_last_eq]
    exact hv

/-- Witness for C7: from version 5, a notify delivers 6; a waiter that
registered having seen 5 receives 6 > 5. -/
theorem notify_versions_monotonic_witness :
    ((Cond.mk [(1, [])] 5).notify []).1.last = 6 ∧
    (1, 6) ∈ ((Cond.mk [] 5).run [CondOp.register 1 5 [], CondOp.notify []]).2 ∧
    5 < 6 :=
  ⟨notify_versions_monotonic.1 ⟨[(1, [])], 5⟩ [],
   by decide,
   notify_versions_monotonic.2.2.2 ⟨[], 5⟩ 1 5 [] [CondOp.notify []]
     (by decide) (by decide) 6 (by decide)⟩

/-! ## C2: status-only updates -/

/-- C2 (amended): an update whose old and new objects differ only in
resource-version metadata — or that are IngressRoutes differing only in
the status subresource and resource-version — is masked by `onUpdate`: the
object store is not mutated and `false` is returned, so no rebuild is
enqueued and no cache version is bumped.  (The `Status` mask of the source
applies to the `IngressRoute` type only; see the counterexample for an
HTTPProxy status-only update, which is not masked.) -/
theorem onUpdate_noop_status_update (kc : KubernetesCache) (oldObj newObj : Object)
    (h : scrubRV oldObj = scrubRV newObj ∨
         (∃ a b, oldObj = Object.ingressRoute a ∧ newObj = Object.ingressRoute b ∧
            ({ a with meta := scrubMeta a.meta, status := "" } : IngressRouteObj) =
              { b with meta := scrubMeta b.meta, status := "" })) :
    onUpdate kc (.update oldObj newObj) = (kc, false) := by
  have hmask : maskedEqual oldObj newObj = true := by
    rcases h with h | ⟨a, b, rfl, rfl, hab⟩
    · simp only [maskedEqual, h, decide_eq_true_eq]
    · simp only [maskedEqual, scrubRV, scrubIngressRouteStatus, decide_eq_true_eq]
      exact congrArg Object.ingressRoute hab
  simp [onUpdate, hmask]

/-- Witness for C2: an IngressRoute whose status and resource version both
changed is skipped. -/
theorem onUpdate_noop_status_update_witness :
    onUpdate {}
        (.update (.ingressRoute ⟨⟨"default", "route", "1", []⟩, none, [], none, "valid"⟩)
                 (.ingressRoute ⟨⟨"default", "route", "2", []⟩, none, [], none, "invalid"⟩)) =
      ({}, false) :=
  onUpdate_noop_status_update {} _ _
    (Or.inr ⟨⟨⟨"default", "route", "1", []⟩, none, [], none, "valid"⟩,
             ⟨⟨"default", "route", "2", []⟩, none, [], none, "invalid"⟩,
             rfl, rfl, by decide⟩)

/-- C2 counterexample: an HTTPProxy update whose only difference is the
status subresource (same resource version, same spec) is **not** masked:
the store is mutated (the new object replaces the old) and `onUpdate`
returns `true`, which enqueues a rebuild.  This refutes the claim as
stated for objects other than IngressRoute. -/
theorem onUpdate_httpproxy_status_cx :
    onUpdate
        ⟨[], "", [], [], [(⟨"proxy", "default"⟩,
            ⟨⟨"default", "proxy", "1", []⟩, none, [], none, "valid"⟩)], [], [], [], []⟩
        (.update (.httpProxy ⟨⟨"default", "proxy", "1", []⟩, none, [], none, "valid"⟩)
                 (.httpProxy ⟨⟨"default", "proxy", "1", []⟩, none, [], none, "invalid"⟩)) =
      (⟨[], "", [], [], [(⟨"proxy", "default"⟩,
          ⟨⟨"default", "proxy", "1", []⟩, none, [], none, "invalid"⟩)], [], [], [], []⟩,
       true) := by
  decide

/-! ## C5 / C9 machinery: the delegation key lookup is faithful -/

theorem optAny_eq_true {α : Type} (f : α → Bool) (o : Option α) :
    optAny f o = true ↔ ∃ x, o = some x ∧ f x = true := by
  cases o <;> simp [optAny]

theorem append_sep_inj {α : Type} (sep : α) :
    ∀ (xs zs ys ws : List α), sep ∉ xs → sep ∉ zs →
      xs ++ sep :: ys = zs ++ sep :: ws → xs = zs ∧ ys = ws := by
  intro xs
  induction xs with
  | nil =>
    intro zs ys ws _ hzs h
    cases zs with
    | nil => simpa using h
    | cons z zs' =>
      simp only [List.nil_append, List.cons_append, List.cons.injEq] at h
      exact absurd (by rw [h.1]; exact List.mem_cons_self _ _) hzs
  | cons x xs' ih =>
    intro zs ys ws hxs hzs h
    cases zs with
    | nil =>
      simp only [List.nil_append, List.cons_append, List.cons.injEq] at h
      exact absurd (by rw [← h.1]; exact List.mem_cons_self _ _) hxs
    | cons z zs' =>
      simp only [List.cons_append, List.cons.injEq] at h
      obtain ⟨rfl, h2⟩ := h
      have hrec := ih zs' ys ws (fun hm => hxs (List.mem_cons_of_mem _ hm))
        (fun hm => hzs (List.mem_cons_of_mem _ hm)) h2
      exact ⟨by rw [hrec.1], hrec.2⟩

theorem data_append_slash (a b : String) :
    (a ++ "/" ++ b).data = a.data ++ '/' :: b.data := by
  rw [String.data_append, String.data_append]
  simp

theorem slash_append_inj {a b c d : String}
    (ha : a.data.contains '/' = false) (hc : c.data.contains '/' = false)
    (h : a ++ "/" ++ b = c ++ "/" ++ d) : a = c ∧ b = d := by
  have hdata : a.data ++ '/' :: b.data = c.data ++ '/' :: d.data := by
    have := congrArg String.data h
    rwa [data_append_slash, data_append_slash] at this
  have ha' : '/' ∉ a.data := by simpa using ha
  have hc' : '/' ∉ c.data := by simpa using hc
  obtain ⟨h1, h2⟩ := append_sep_inj '/' a.data c.data b.data d.data ha' hc' hdata
  exact ⟨String.ext h1, String.ext h2⟩

theorem mem_delegationKeys (kc : KubernetesCache) (key : String) :
    key ∈ delegationKeys kc ↔
      ∃ cd ∈ delegationEntries kc, ∃ n ∈ cd.targetNamespaces,
        n ++ "/" ++ cd.secretName = key := by
  simp only [delegationKeys, delegationEntries, List.mem_append, List.mem_flatMap,
    List.mem_map]
  constructor
  · rintro (⟨p, hp, cd, hcd, n, hn, rfl⟩ | ⟨p, hp, cd, hcd, n, hn, rfl⟩)
    · exact ⟨cd, Or.inl ⟨p, hp, hcd⟩, n, hn, rfl⟩
    · exact ⟨cd, Or.inr ⟨p, hp, hcd⟩, n, hn, rfl⟩
  · rintro ⟨cd, ⟨p, hp, hcd⟩ | ⟨p, hp, hcd⟩, n, hn, rfl⟩
    · exact Or.inl ⟨p, hp, cd, hcd, n, hn, rfl⟩
    · exact Or.inr ⟨p, hp, cd, hcd, n, hn, rfl⟩

/-- The delegation-map lookup under the key `ns ++ "/" ++ name` finds
exactly the delegation records for secret `name` whose target namespaces
include the (slash-free) namespace `ns`. -/
theorem delegations_contains_iff (kc : KubernetesCache)
    (hdeleg : (delegationEntries kc).all
      (fun cd => cd.targetNamespaces.all (fun n => !n.data.contains '/')) = true)
    (name ns : String) (hns : ns.data.contains '/' = false) :
    (delegationKeys kc).contains (ns ++ "/" ++ name) = true ↔
      ∃ cd ∈ delegationEntries kc, cd.secretName = name ∧ ns ∈ cd.targetNamespaces := by
  rw [List.elem_iff, mem_delegationKeys]
  constructor
  · rintro ⟨cd, hcd, n, hn, heq⟩
    have hnsf : n.data.contains '/' = false := by
      have h1 := List.all_eq_true.mp hdeleg cd hcd
      have h2 := List.all_eq_true.mp h1 n hn
      simpa using h2
    obtain ⟨rfl, rfl⟩ := slash_append_inj hnsf hns heq
    exact ⟨cd, hcd, rfl, hn⟩
  · rintro ⟨cd, hcd, rfl, hn⟩
    exact ⟨cd, hcd, ns, hn, rfl⟩

/-- The pair of lookups performed per root (exact namespace and wildcard)
is exactly the spec's delegation rule. -/
theorem delegations_lookup_permits (kc : KubernetesCache)
    (hdeleg : (delegationEntries kc).all
      (fun cd => cd.targetNamespaces.all (fun n => !n.data.contains '/')) = true)
    (name ns : String) (hns : ns.data.contains '/' = false) :
    ((delegationKeys kc).contains (ns ++ "/" ++ name) ||
     (delegationKeys kc).contains ("*/" ++ name)) = true ↔
      DelegationPermits kc name ns := by
  rw [Bool.or_eq_true, delegations_contains_iff kc hdeleg name ns hns,
    show ("*/" ++ name) = ("*" : String) ++ "/" ++ name from rfl,
    delegations_contains_iff kc hdeleg name "*" (by decide)]
  unfold DelegationPermits
  constructor
  · rintro (⟨cd, hcd, hname, hn⟩ | ⟨cd, hcd, hname, hn⟩)
    · exact ⟨cd, hcd, hname, Or.inl hn⟩
    · exact ⟨cd, hcd, hname, Or.inr hn⟩
  · rintro ⟨cd, hcd, hname, hn | hn⟩
    · exact Or.inl ⟨cd, hcd, hname, hn⟩
    · exact Or.inr ⟨cd, hcd, hname, hn⟩

/-- The three-way disjunction tested per root object, related to the
spec-side form.  `b1` is the root's same-namespace TLS test and `b2` its
fully-qualified TLS test. -/
theorem root_triple_iff (kc : KubernetesCache)
    (hdeleg : (delegationEntries kc).all
      (fun cd => cd.targetNamespaces.all (fun n => !n.data.contains '/')) = true)
    (secName secNs ns : String) (hns : ns.data.contains '/' = false) (b1 b2 : Bool) :
    ((ns = secNs && b1) ||
     ((delegationKeys kc).contains (ns ++ "/" ++ secName) && b2) ||
     ((delegationKeys kc).contains ("*/" ++ secName) && b2)) = true ↔
      ((ns = secNs ∧ b1 = true) ∨ (b2 = true ∧ DelegationPermits kc secName ns)) := by
  simp only [Bool.or_eq_true, Bool.and_eq_true, decide_eq_true_eq]
  constructor
  · rintro ((⟨hn, hb⟩ | ⟨hc, hb⟩) | ⟨hc, hb⟩)
    · exact Or.inl ⟨hn, hb⟩
    · refine Or.inr ⟨hb, ?_⟩
      exact (delegations_lookup_permits kc hdeleg secName ns hns).mp
        (by rw [Bool.or_eq_true]; exact Or.inl hc)
    · refine Or.inr ⟨hb, ?_⟩
      exact (delegations_lookup_permits kc hdeleg secName ns hns).mp
        (by rw [Bool.or_eq_true]; exact Or.inr hc)
  · rintro (⟨hn, hb⟩ | ⟨hb, hperm⟩)
    · exact Or.inl (Or.inl ⟨hn, hb⟩)
    · have hor := (delegations_lookup_permits kc hdeleg secName ns hns).mpr hperm
      rw [Bool.or_eq_true] at hor
      rcases hor with hc | hc
      · exact Or.inl (Or.inr ⟨hc, hb⟩)
      · exact Or.inr ⟨hc, hb⟩

/-- The Ingress scan of `secretTriggersRebuild`, related to the spec
form. -/
theorem ingress_block_iff (kc : KubernetesCache)
    (ings : List (Meta × IngressObj))
    (hn : ings.all (fun p => !p.2.meta.nspace.data.contains '/') = true)
    (hdeleg : (delegationEntries kc).all
      (fun cd => cd.targetNamespaces.all (fun n => !n.data.contains '/')) = true)
    (sec : SecretObj) :
    (ings.any (fun p =>
      (p.2.meta.nspace = sec.meta.nspace &&
        p.2.tls.any (fun tls => tls.secretName = sec.meta.name)) ||
      ((delegationKeys kc).contains (p.2.meta.nspace ++ "/" ++ sec.meta.name) &&
        p.2.tls.any (fun tls =>
          tls.secretName = sec.meta.nspace ++ "/" ++ sec.meta.name)) ||
      ((delegationKeys kc).contains ("*/" ++ sec.meta.name) &&
        p.2.tls.any (fun tls =>
          tls.secretName = sec.meta.nspace ++ "/" ++ sec.meta.name)))) = true ↔
    (∃ p ∈ ings,
      (p.2.meta.nspace = sec.meta.nspace ∧
        ∃ tls ∈ p.2.tls, tls.secretName = sec.meta.name) ∨
      ((∃ tls ∈ p.2.tls,
          tls.secretName = sec.meta.nspace ++ "/" ++ sec.meta.name) ∧
        DelegationPermits kc sec.meta.name p.2.meta.nspace)) := by
  rw [List.any_eq_true]
  constructor
  · rintro ⟨p, hp, hcond⟩
    have hns : p.2.meta.nspace.data.contains '/' = false := by
      simpa using List.all_eq_true.mp hn p hp
    rw [root_triple_iff kc hdeleg sec.meta.name sec.meta.nspace p.2.meta.nspace hns]
      at hcond
    simp only [List.any_eq_true, decide_eq_true_eq] at hcond
    exact ⟨p, hp, hcond⟩
  · rintro ⟨p, hp, hcond⟩
    refine ⟨p, hp, ?_⟩
    have hns : p.2.meta.nspace.data.contains '/' = false := by
      simpa using List.all_eq_true.mp hn p hp
    rw [root_triple_iff kc hdeleg sec.meta.name sec.meta.nspace p.2.meta.nspace hns]
    simp only [List.any_eq_true, decide_eq_true_eq]
    exact hcond

/-- The root scan (IngressRoute and HTTPProxy share it) of
`secretTriggersRebuild`, related to the spec form. -/
theorem roots_block_iff (kc : KubernetesCache)
    (roots : List (Meta × IngressRouteObj))
    (hn : roots.all (fun p => !p.2.meta.nspace.data.contains '/') = true)
    (hdeleg : (delegationEntries kc).all
      (fun cd => cd.targetNamespaces.all (fun n => !n.data.contains '/')) = true)
    (sec : SecretObj) :
    (roots.any (fun p =>
      optAny (fun vh =>
        optAny (fun tls =>
          (p.2.meta.nspace = sec.meta.nspace && tls.secretName = sec.meta.name) ||
          ((delegationKeys kc).contains (p.2.meta.nspace ++ "/" ++ sec.meta.name) &&
            tls.secretName = sec.meta.nspace ++ "/" ++ sec.meta.name) ||
          ((delegationKeys kc).contains ("*/" ++ sec.meta.name) &&
            tls.secretName = sec.meta.nspace ++ "/" ++ sec.meta.name)) vh.tls)
        p.2.virtualHost)) = true ↔
    (∃ p ∈ roots, ∃ vh tls, p.2.virtualHost = some vh ∧ vh.tls = some tls ∧
      ((p.2.meta.nspace = sec.meta.nspace ∧ tls.secretName = sec.meta.name) ∨
       (tls.secretName = sec.meta.nspace ++ "/" ++ sec.meta.name ∧
        DelegationPermits kc sec.meta.name p.2.meta.nspace))) := by
  rw [List.any_eq_true]
  constructor
  · rintro ⟨p, hp, hcond⟩
    rw [optAny_eq_true] at hcond
    obtain ⟨vh, hvh, hcond⟩ := hcond
    rw [optAny_eq_true] at hcond
    obtain ⟨tls, htls, hcond⟩ := hcond
    have hns : p.2.meta.nspace.data.contains '/' = false := by
      simpa using List.all_eq_true.mp hn p hp
    rw [root_triple_iff kc hdeleg sec.meta.name sec.meta.nspace p.2.meta.nspace hns]
      at hcond
    simp only [decide_eq_true_eq] at hcond
    exact ⟨p, hp, vh, tls, hvh, htls, hcond⟩
  · rintro ⟨p, hp, vh, tls, hvh, htls, hcond⟩
    refine ⟨p, hp, ?_⟩
    rw [optAny_eq_true]
    refine ⟨vh, hvh, ?_⟩
    rw [optAny_eq_true]
    refine ⟨tls, htls, ?_⟩
    have hns : p.2.meta.nspace.data.contains '/' = false := by
      simpa using List.all_eq_true.mp hn p hp
    rw [root_triple_iff kc hdeleg sec.meta.name sec.meta.nspace p.2.meta.nspace hns]
    simp only [decide_eq_true_eq]
    exact hcond

/-- `secretTriggersRebuild` decides exactly the claim's condition: a
`ca.crt` secret always triggers; otherwise some TLS spec of a stored
Ingress, IngressRoute root, or HTTPProxy root must reference the secret in
its own namespace or via a permitting delegation.  The hypothesis records
that the namespaces in the store are slash-free, as Kubernetes guarantees
(the delegation map keys on `targetnamespace/secretname` strings). -/
theorem secretTriggersRebuild_iff (kc : KubernetesCache) (sec : SecretObj)
    (hsf : namespacesSlashFree kc = true) :
    secretTriggersRebuild kc sec = true ↔
      (sec.hasCA = true ∨ SecretReferenced kc sec) := by
  have hsf' := hsf
  simp only [namespacesSlashFree, Bool.and_eq_true] at hsf'
  obtain ⟨⟨⟨hing, hir⟩, hpr⟩, hdeleg⟩ := hsf'
  by_cases hca : sec.hasCA = true
  · simp [secretTriggersRebuild, hca]
  · have hca' : sec.hasCA = false := by simpa using hca
    simp only [secretTriggersRebuild, hca', Bool.false_eq_true, if_false,
      Bool.or_eq_true]
    rw [ingress_block_iff kc kc.ingresses hing hdeleg sec,
      roots_block_iff kc kc.ingressroutes hir hdeleg sec,
      roots_block_iff kc kc.httpproxies hpr hdeleg sec]
    unfold SecretReferenced
    simp [or_assoc]

/-- `serviceTriggersRebuild` decides exactly the implicit claim's
reference condition for services. -/
theorem serviceTriggersRebuild_iff (kc : KubernetesCache) (svc : ServiceObj) :
    serviceTriggersRebuild kc svc = true ↔ ServiceReferenced kc svc := by
  simp only [serviceTriggersRebuild, ServiceReferenced, List.any_eq_true,
    optAny_eq_true, Bool.or_eq_true, Bool.and_eq_true, decide_eq_true_eq,
    or_assoc]

/-! ## C5: `secretTriggersRebuild` is exactly the reference check -/

/-- C5: for every secret, `secretTriggersRebuild` returns true iff some
TLS spec of a stored Ingress, IngressRoute root, or HTTPProxy root
references the secret in the secret's own namespace, or references it
cross-namespace via a TLSCertificateDelegation whose target namespaces
include that root's namespace (wildcard `*` matching all namespaces) —
except that a secret carrying a `ca.crt` data key always returns true.
The hypothesis records that the namespaces stored in the cache contain no
`/`, as Kubernetes DNS-label names guarantee. -/
theorem secretTriggersRebuild_correct (kc : KubernetesCache) (sec : SecretObj)
    (hsf : namespacesSlashFree kc = true) :
    secretTriggersRebuild kc sec = true ↔
      (sec.hasCA = true ∨ SecretReferenced kc sec) :=
  secretTriggersRebuild_iff kc sec hsf

/-- Witness for C5: a root in namespace `apps` references
`secrets/wildcard` under a delegation of `wildcard` to `apps`. -/
theorem secretTriggersRebuild_correct_witness :
    namespacesSlashFree
        ⟨[], "", [],
         [(⟨"root", "apps"⟩,
           ⟨⟨"apps", "root", "1", []⟩,
            some ⟨"example.com", some ⟨"secrets/wildcard"⟩⟩, [], none, ""⟩)],
         [], [],
         [(⟨"deleg", "secrets"⟩,
           ⟨⟨"secrets", "deleg", "1", []⟩, [⟨"wildcard", ["apps"]⟩]⟩)],
         [], []⟩ = true ∧
    (secretTriggersRebuild
        ⟨[], "", [],
         [(⟨"root", "apps"⟩,
           ⟨⟨"apps", "root", "1", []⟩,
            some ⟨"example.com", some ⟨"secrets/wildcard"⟩⟩, [], none, ""⟩)],
         [], [],
         [(⟨"deleg", "secrets"⟩,
           ⟨⟨"secrets", "deleg", "1", []⟩, [⟨"wildcard", ["apps"]⟩]⟩)],
         [], []⟩
        ⟨⟨"secrets", "wildcard", "1", []⟩, "kubernetes.io/tls", [("tls.crt", "x")]⟩ = true ↔
      (SecretObj.hasCA ⟨⟨"secrets", "wildcard", "1", []⟩, "kubernetes.io/tls",
          [("tls.crt", "x")]⟩ = true ∨
       SecretReferenced
        ⟨[], "", [],
         [(⟨"root", "apps"⟩,
           ⟨⟨"apps", "root", "1", []⟩,
            some ⟨"example.com", some ⟨"secrets/wildcard"⟩⟩, [], none, ""⟩)],
         [], [],
         [(⟨"deleg", "secrets"⟩,
           ⟨⟨"secrets", "deleg", "1", []⟩, [⟨"wildcard", ["apps"]⟩]⟩)],
         [], []⟩
        ⟨⟨"secrets", "wildcard", "1", []⟩, "kubernetes.io/tls", [("tls.crt", "x")]⟩)) :=
  ⟨by decide, secretTriggersRebuild_correct _ _ (by decide)⟩

/-! ## C9: the Insert boolean reports rebuild-necessity, not store change -/

/-- C9 (amended): `Insert` always stores a Service, overwriting by
(namespace, name) key, yet returns `false` whenever no Ingress,
IngressRoute, or HTTPProxy in the same namespace references the service:
the boolean reports whether the mutation requires a rebuild, not whether
the store changed.  The same holds for accepted Secrets **without a
`ca.crt` key** that nothing references; a `ca.crt`-bearing secret is
stored and always reported as requiring a rebuild, even when unreferenced
(see the counterexample). -/
theorem insert_reports_rebuild_not_change (kc : KubernetesCache) :
    (∀ svc : ServiceObj,
      (kc.insert (.service svc)).1 =
        { kc with services := mapInsert (toMeta svc.meta) svc kc.services } ∧
      (¬ ServiceReferenced kc svc → (kc.insert (.service svc)).2 = false)) ∧
    (∀ sec : SecretObj, sec.type = secretTypeTLS → sec.hasCA = false →
      (kc.insert (.secret sec)).1 =
        { kc with secrets := mapInsert (toMeta sec.meta) sec kc.secrets } ∧
      (namespacesSlashFree kc = true → ¬ SecretReferenced kc sec →
        (kc.insert (.secret sec)).2 = false)) := by
  constructor
  · intro svc
    refine ⟨rfl, ?_⟩
    intro href
    have h2 : serviceTriggersRebuild kc svc = false := by
      cases h3 : serviceTriggersRebuild kc svc
      · rfl
      · exact absurd ((serviceTriggersRebuild_iff kc svc).mp h3) href
    exact h2
  · intro sec htls hca
    have hsa : ¬ sec.type = secretTypeServiceAccountToken := by
      rw [htls]
      decide
    constructor
    · simp [KubernetesCache.insert, hsa, htls, secretTypeTLS,
        secretTypeServiceAccountToken]
    · intro hsf href
      have h2 : secretTriggersRebuild kc sec = false := by
        cases h3 : secretTriggersRebuild kc sec
        · rfl
        · rcases (secretTriggersRebuild_iff kc sec hsf).mp h3 with h | h
          · rw [hca] at h
            exact absurd h (by decide)
          · exact absurd h href
      simp only [KubernetesCache.insert]
      simp [hsa, htls, secretTypeTLS, secretTypeServiceAccountToken]
      exact h2

/-- C9 counterexample: a `ca.crt` secret in an otherwise empty store is
accepted and stored even though nothing references it, yet `Insert`
returns `true` (the documented over-approximation), refuting the claim's
final sentence as stated for all accepted secrets. -/
theorem insert_unreferenced_ca_secret_cx :
    (KubernetesCache.insert {}
        (.secret ⟨⟨"default", "ca", "1", []⟩, "Opaque", [("ca.crt", "x")]⟩)).2 = true ∧
    ¬ SecretReferenced {} ⟨⟨"default", "ca", "1", []⟩, "Opaque", [("ca.crt", "x")]⟩ := by
  constructor
  · decide
  · rintro (⟨p, hp, _⟩ | ⟨p, hp, _⟩ | ⟨p, hp, _⟩) <;> simp at hp

/-- Witness for C9: in an empty store, an unreferenced service and an
unreferenced plain TLS secret are both reported as not needing a
rebuild. -/
theorem insert_reports_rebuild_not_change_witness :
    (KubernetesCache.insert {}
        (.service ⟨⟨"default", "kuard", "1", []⟩, "ports 80"⟩)).2 = false ∧
    (KubernetesCache.insert {}
        (.secret ⟨⟨"default", "tls", "1", []⟩, "kubernetes.io/tls",
          [("tls.crt", "x")]⟩)).2 = false := by
  constructor
  · exact ((insert_reports_rebuild_not_change {}).1
        ⟨⟨"default", "kuard", "1", []⟩, "ports 80"⟩).2
      (by rintro (⟨p, hp, _⟩ | ⟨p, hp, _⟩ | ⟨p, hp, _⟩) <;> simp at hp)
  · exact (((insert_reports_rebuild_not_change {}).2
        ⟨⟨"default", "tls", "1", []⟩, "kubernetes.io/tls", [("tls.crt", "x")]⟩
        rfl (by decide)).2 (by decide))
      (by rintro (⟨p, hp, _⟩ | ⟨p, hp, _⟩ | ⟨p, hp, _⟩) <;> simp at hp)

/-! ## C4: weighted cluster normalization -/

theorem insertStable_perm (x : ClusterWeight) (l : List ClusterWeight) :
    List.Perm (insertStable x l) (x :: l) := by
  induction l with
  | nil => exact List.Perm.refl [x]
  | cons y ys ih =>
    by_cases h : clusterWeightLess x y
    · simp [insertStable, h]
    · simp only [insertStable, h, if_false]
      exact (ih.cons y).trans (List.Perm.swap x y ys)

theorem sortClusterWeights_perm (l : List ClusterWeight) :
    List.Perm (sortClusterWeights l) l := by
  induction l with
  | nil => exact List.Perm.refl []
  | cons x xs ih => exact (insertStable_perm x (sortClusterWeights xs)).trans (ih.cons x)

theorem u32sum_eq (clusters : List ClusterModel) :
    u32sum clusters = (clusters.map (fun c => c.weight)).sum % 2 ^ 32 := by
  have h : ∀ (l : List ClusterModel) (a : Nat),
      l.foldl (fun t c => u32 (t + c.weight)) (a % 2 ^ 32) =
        (a + (l.map (fun c => c.weight)).sum) % 2 ^ 32 := by
    intro l
    induction l with
    | nil =>
      intro a
      simp
    | cons c cs ih =>
      intro a
      simp only [List.foldl_cons, List.map_cons, List.sum_cons]
      rw [show u32 (a % 2 ^ 32 + c.weight) = (a + c.weight) % 2 ^ 32 by
            simp [u32, Nat.mod_add_mod],
          ih (a + c.weight), Nat.add_assoc]
  have h0 := h clusters 0
  rw [Nat.zero_mod, Nat.zero_add] at h0
  simpa [u32sum] using h0

/-- C4 (amended): the accumulated total is `uint32` arithmetic.  If the
weights' sum wraps to zero modulo `2^32` (in particular when every
declared weight is zero) each emitted weight is 1 and the emitted total is
the cluster count modulo `2^32`; otherwise the declared weights are
emitted unchanged (the emitted clusters are a by-name reordering of the
declared ones) and the total is their sum modulo `2^32`. -/
theorem weightedClusters_normalization (clusters : List ClusterModel)
    (hne : clusters ≠ [])
    (hw : ∀ c ∈ clusters, c.weight < 2 ^ 32) :
    (u32sum clusters = 0 →
      (∀ cw ∈ (weightedClusters clusters).clusters, cw.weight = 1) ∧
      (weightedClusters clusters).totalWeight = clusters.length % 2 ^ 32) ∧
    (u32sum clusters ≠ 0 →
      List.Perm (weightedClusters clusters).clusters
        (clusters.map (fun c => ClusterWeight.mk c.envoyName c.weight)) ∧
      (weightedClusters clusters).totalWeight =
        (clusters.map (fun c => c.weight)).sum % 2 ^ 32) := by
  constructor
  · intro h0
    constructor
    · intro cw hcw
      simp only [weightedClusters, h0, if_true] at hcw
      have hmem := (sortClusterWeights_perm _).mem_iff.mp hcw
      simp only [List.mem_map] at hmem
      obtain ⟨w, _, rfl⟩ := hmem
      rfl
    · simp [weightedClusters, h0, u32]
  · intro h0
    constructor
    · simp only [weightedClusters, h0, if_false]
      exact sortClusterWeights_perm _
    · simp only [weightedClusters, h0, if_false]
      exact u32sum_eq clusters

/-- C4 counterexample: two clusters with nonzero weights `2^31` each make
the `uint32` total wrap to zero, so the code rewrites both emitted weights
to 1 and the total to 2 — refuting the claim's "otherwise declared
weights are emitted unchanged with total weight equal to their sum". -/
theorem weightedClusters_overflow_cx :
    (¬ ∀ c ∈ ([⟨"a", 2 ^ 31⟩, ⟨"b", 2 ^ 31⟩] : List ClusterModel), c.weight = 0) ∧
    (weightedClusters [⟨"a", 2 ^ 31⟩, ⟨"b", 2 ^ 31⟩]).clusters = [⟨"a", 1⟩, ⟨"b", 1⟩] ∧
    (weightedClusters [⟨"a", 2 ^ 31⟩, ⟨"b", 2 ^ 31⟩]).totalWeight = 2 := by
  refine ⟨by decide, rfl, rfl⟩

/-- Witness for C4 at the all-zero input. -/
theorem weightedClusters_normalization_witness :
    ([⟨"a", 0⟩, ⟨"b", 0⟩] : List ClusterModel) ≠ [] ∧
    (∀ cw ∈ (weightedClusters [⟨"a", 0⟩, ⟨"b", 0⟩]).clusters, cw.weight = 1) ∧
    (weightedClusters [⟨"a", 0⟩, ⟨"b", 0⟩]).totalWeight = 2 := by
  have h := (weightedClusters_normalization [⟨"a", 0⟩, ⟨"b", 0⟩]
    (by decide) (by decide)).1 (by decide)
  exact ⟨by decide, h.1, h.2⟩

end Contour

